import Mathlib

/-!
# EcoLedger tamper-evident carbon-activity chain — verification development

Shallow embedding of the hash-chain core of the EcoLedger backend
(`backend/hashing.py`, `backend/app.py`, `backend/models.py`) and proofs about
it.  The digest primitive `hashlib.sha256(...).hexdigest()` is embedded as a
full executable SHA-256 (FIPS 180-4) over UTF-8 bytes, so that every claim can
be evaluated on concrete inputs.
-/

set_option maxRecDepth 100000

namespace EcoLedger

/-! ## SHA-256 (FIPS 180-4), words as `Nat` reduced mod 2^32 -/

/-- Truncate to a 32-bit word. -/
def w32 (n : Nat) : Nat := n % 4294967296

/-- Right rotation of a 32-bit word by `k` bits. -/
def rotr (x k : Nat) : Nat := (x >>> k) ||| w32 (x <<< (32 - k))

/-- Bitwise complement of a 32-bit word. -/
def compl32 (x : Nat) : Nat := x ^^^ 4294967295

def bigSigma0 (x : Nat) : Nat := rotr x 2 ^^^ rotr x 13 ^^^ rotr x 22

def bigSigma1 (x : Nat) : Nat := rotr x 6 ^^^ rotr x 11 ^^^ rotr x 25

def smallSigma0 (x : Nat) : Nat := rotr x 7 ^^^ rotr x 18 ^^^ (x >>> 3)

def smallSigma1 (x : Nat) : Nat := rotr x 17 ^^^ rotr x 19 ^^^ (x >>> 10)

def chFn (x y z : Nat) : Nat := (x &&& y) ^^^ (compl32 x &&& z)

def majFn (x y z : Nat) : Nat := (x &&& y) ^^^ (x &&& z) ^^^ (y &&& z)

/-- The 64 SHA-256 round constants (FIPS 180-4 §4.2.2, in decimal). -/
def sha256K : List Nat :=
  [1116352408, 1899447441, 3049323471, 3921009573, 961987163,
   1508970993, 2453635748, 2870763221, 3624381080, 310598401,
   607225278, 1426881987, 1925078388, 2162078206, 2614888103,
   3248222580, 3835390401, 4022224774, 264347078, 604807628,
   770255983, 1249150122, 1555081692, 1996064986, 2554220882,
   2821834349, 2952996808, 3210313671, 3336571891, 3584528711,
   113926993, 338241895, 666307205, 773529912, 1294757372,
   1396182291, 1695183700, 1986661051, 2177026350, 2456956037,
   2730485921, 2820302411, 3259730800, 3345764771, 3516065817,
   3600352804, 4094571909, 275423344, 430227734, 506948616,
   659060556, 883997877, 958139571, 1322822218, 1537002063,
   1747873779, 1955562222, 2024104815, 2227730452, 2361852424,
   2428436474, 2756734187, 3204031479, 3329325298]

/-- The eight 32-bit working variables of the compression function. -/
structure H8 where
  a : Nat
  b : Nat
  c : Nat
  d : Nat
  e : Nat
  f : Nat
  g : Nat
  h : Nat
deriving DecidableEq, Repr

/-- SHA-256 initial hash value (FIPS 180-4 §5.3.3, in decimal). -/
def initH : H8 :=
  ⟨1779033703, 3144134277, 1013904242, 2773480762,
   1359893119, 2600822924, 528734635, 1541459225⟩

/-- One round of the compression function; `wk` is the pair of the schedule
word and the round constant. -/
def sha256Round (s : H8) (wk : Nat × Nat) : H8 :=
  let t1 := w32 (s.h + bigSigma1 s.e + chFn s.e s.f s.g + wk.1 + wk.2)
  let t2 := w32 (bigSigma0 s.a + majFn s.a s.b s.c)
  ⟨w32 (t1 + t2), s.a, s.b, s.c, w32 (s.d + t1), s.e, s.f, s.g⟩

/-- Extend the 16-word block to the 64-word message schedule; `fuel` counts the
remaining words to append (48 at the top call). -/
def extendSchedule : Nat → List Nat → List Nat
  | 0, w => w
  | fuel + 1, w =>
    let i := w.length
    let nw := w32 (smallSigma1 (w.getD (i - 2) 0) + w.getD (i - 7) 0 +
                   smallSigma0 (w.getD (i - 15) 0) + w.getD (i - 16) 0)
    extendSchedule fuel (w ++ [nw])

/-- Compress one 16-word block into the running hash state. -/
def sha256Compress (s : H8) (block : List Nat) : H8 :=
  let ws := extendSchedule 48 block
  let t := (ws.zip sha256K).foldl sha256Round s
  ⟨w32 (s.a + t.a), w32 (s.b + t.b), w32 (s.c + t.c), w32 (s.d + t.d),
   w32 (s.e + t.e), w32 (s.f + t.f), w32 (s.g + t.g), w32 (s.h + t.h)⟩

/-- UTF-8 encoding of one character (as byte values). -/
def charUtf8 (c : Char) : List Nat :=
  let n := c.toNat
  if n < 128 then [n]
  else if n < 2048 then [192 + n / 64, 128 + n % 64]
  else if n < 65536 then [224 + n / 4096, 128 + n / 64 % 64, 128 + n % 64]
  else [240 + n / 262144, 128 + n / 4096 % 64, 128 + n / 64 % 64, 128 + n % 64]

/-- UTF-8 bytes of a string (`payload.encode('utf-8')`). -/
def strBytes (s : String) : List Nat :=
  s.data.foldr (fun c acc => charUtf8 c ++ acc) []

/-- The 8-byte big-endian encoding of the message bit length. -/
def lenBytes (n : Nat) : List Nat :=
  [n >>> 56 &&& 255, n >>> 48 &&& 255, n >>> 40 &&& 255, n >>> 32 &&& 255,
   n >>> 24 &&& 255, n >>> 16 &&& 255, n >>> 8 &&& 255, n &&& 255]

/-- SHA-256 padding: append `0x80`, zero bytes to 56 mod 64, then the bit
length. -/
def padMessage (bytes : List Nat) : List Nat :=
  let len := bytes.length
  let zeros := (119 - len % 64) % 64
  bytes ++ 128 :: (List.replicate zeros 0 ++ lenBytes (8 * len))

/-- Pack bytes into big-endian 32-bit words (each input is a byte value, so
scaled addition coincides with bitwise assembly). -/
def toWords : List Nat → List Nat
  | b0 :: b1 :: b2 :: b3 :: rest =>
    (b0 * 16777216 + b1 * 65536 + b2 * 256 + b3) :: toWords rest
  | _ => []

/-- Split a word list into 16-word blocks; `fuel` bounds the recursion. -/
def toBlocks : Nat → List Nat → List (List Nat)
  | 0, _ => []
  | _, [] => []
  | fuel + 1, ws => ws.take 16 :: toBlocks fuel (ws.drop 16)

/-- The eight final hash words of the SHA-256 of a string's UTF-8 bytes. -/
def sha256Words (s : String) : H8 :=
  let ws := toWords (padMessage (strBytes s))
  (toBlocks ws.length ws).foldl sha256Compress initH

/-- Lowercase hexadecimal digits. -/
def hexDigitChars : List Char := "0123456789abcdef".data

def hexDigit (n : Nat) : Char := hexDigitChars.getD (n % 16) '0'

/-- The 8 hex characters of one 32-bit word, most significant first. -/
def wordHex (w : Nat) : List Char :=
  [hexDigit (w >>> 28), hexDigit (w >>> 24), hexDigit (w >>> 20),
   hexDigit (w >>> 16), hexDigit (w >>> 12), hexDigit (w >>> 8),
   hexDigit (w >>> 4), hexDigit w]

/-- The final hash state as a list of its eight words. -/
def h8Words (s : H8) : List Nat := [s.a, s.b, s.c, s.d, s.e, s.f, s.g, s.h]

/-- The model of `hashlib.sha256(s.encode('utf-8')).hexdigest()`: the 64-character
lowercase-hex SHA-256 digest of a string. -/
def sha256Hex (s : String) : String :=
  String.mk (List.flatten ((h8Words (sha256Words s)).map wordHex))

/-! ## Python numeric values as they reach `str()`

`generate_hash` receives `carbon_emission : Union[float, int]` and
canonicalizes it with Python's `str()`.  An `int` prints as its decimal
digits.  A `float` prints as its shortest round-trip decimal representation;
we model a float value by the exact decimal number it was written as, as a
scaled integer `mantissa / 10^scale`, and render `str()` by normalizing away
trailing fractional zeros (always keeping one fractional digit) — exactly the
shortest round-trip form for such literals, e.g. `str(1.20) = "1.2"`,
`str(9.00) = "9.0"`, `str(4.0) = "4.0"`, `str(4.87) = "4.87"`. -/

/-- A Python number as passed for `carbon_emission`: an `int`, or a `float`
written as the decimal `mantissa / 10^scale`. -/
inductive PyNum where
  | int : Int → PyNum
  | float : Int → Nat → PyNum
deriving DecidableEq, Repr

/-- Strip trailing zero digits from the fractional part (`scale` is the fuel,
which strictly bounds the strips). -/
def normFloat : Nat → Nat → Nat × Nat
  | m, 0 => (m, 0)
  | m, e + 1 => if m % 10 = 0 then normFloat (m / 10) e else (m, e + 1)

/-- Python `str` of an `int`. -/
def intStr : Int → String
  | .ofNat n => Nat.repr n
  | .negSucc n => "-" ++ Nat.repr (n + 1)

/-- Left-pad a digit string with zeros to `k` characters. -/
def padZeros (k : Nat) (s : String) : String :=
  String.mk (List.replicate (k - s.length) '0') ++ s

/-- Python `str()` of a number (the canonicalization used by the digest). -/
def pyStr : PyNum → String
  | .int n => intStr n
  | .float m e =>
    let sign := if m < 0 then "-" else ""
    let p := normFloat m.natAbs e
    if p.2 = 0 then
      sign ++ Nat.repr p.1 ++ ".0"
    else
      sign ++ Nat.repr (p.1 / 10 ^ p.2) ++ "." ++ padZeros p.2 (Nat.repr (p.1 % 10 ^ p.2))

/-- The exact numeric value denoted by a `PyNum` (exact for every value used
in this development). -/
def pyNumToRat : PyNum → Rat
  | .int n => (n : Rat)
  | .float m e => (m : Rat) / ((10 : Rat) ^ e)

/-! ## `backend/hashing.py` -/

/-- The genesis sentinel `"0" * 64` used throughout `hashing.py`. -/
def genesisHash : String := String.mk (List.replicate 64 '0')

/-- Function `get_genesis_hash()` from `hashing.py`. -/
def get_genesis_hash : String := genesisHash

/-- Function `is_genesis_hash(hash_value)` from `hashing.py`. -/
def is_genesis_hash (hash_value : String) : Bool := hash_value == genesisHash

/-- Function `generate_hash` from `hashing.py`: SHA-256 hex digest of the payload
`f"{previous_hash}{user_id}{activity_type}{emission_str}{timestamp}"` where
`emission_str = str(carbon_emission)`. -/
def generate_hash (previous_hash user_id activity_type : String)
    (carbon_emission : PyNum) (timestamp : String) : String :=
  let emission_str := pyStr carbon_emission
  let payload := previous_hash ++ user_id ++ activity_type ++ emission_str ++ timestamp
  sha256Hex payload

/-- One document of the `activity_logs` collection, with the fields read by
the hashing / verification / append logic.  `id` models the store-assigned
`_id` (MongoDB ObjectIds: unique and monotonically increasing with insertion
time; the code sorts and selects by it).  The remaining stored keys
(`emission_unit`, `description`, `climatiq_data` and the activity parameters)
are never read by `generate_hash`, `verify_hash`, `verify_chain` or the
chain-linking steps of `create_activity` and are omitted. -/
structure Doc where
  id : Nat
  user_id : String
  activity_type : String
  emission : PyNum
  timestamp : String
  previous_hash : String
  current_hash : String
deriving DecidableEq, Repr

/-- A placeholder document for total lookups (never reached in the proofs). -/
def dfltDoc : Doc := ⟨0, "", "", .int 0, "", "", ""⟩

/-- Function `verify_hash(record)` from `hashing.py`: recompute the digest from the
record's own fields and compare with the stored `current_hash`. -/
def verify_hash (record : Doc) : Bool :=
  generate_hash record.previous_hash record.user_id record.activity_type
      record.emission record.timestamp
    == record.current_hash

/-- The message of `verify_chain` when the collection is empty. -/
def emptyMessage : String := "Database kosong, tidak ada record untuk diverifikasi."

/-- The chain-discontinuity message of `verify_chain` at record number `n`. -/
def chainBrokenMessage (n : Nat) : String :=
  "Chain terputus di record #" ++ Nat.repr n ++ ". Previous hash tidak cocok."

/-- The digest-mismatch message of `verify_chain` at record number `n`. -/
def hashInvalidMessage (n : Nat) : String :=
  "Hash tidak valid di record #" ++ Nat.repr n ++ ". Data kemungkinan sudah dimodifikasi."

/-- The success message of `verify_chain` over `n` records. -/
def validMessage (n : Nat) : String :=
  "Semua " ++ Nat.repr n ++ " record valid. Integritas data terjamin!"

/-- The dictionary returned by `verify_chain` (and surfaced unchanged by the
`/api/verify-chain` endpoint); `invalid_record_id` holds `str(record["_id"])`
when present. -/
structure VerificationResult where
  valid : Bool
  total_records : Nat
  message : String
  invalid_record_id : Option String
deriving DecidableEq, Repr

/-- The `async for` loop of `verify_chain`: `previous_hash` is the running
expected digest, `record_number` the count of records already checked. -/
def verifyLoop (total_records : Nat) (previous_hash : String)
    (record_number : Nat) : List Doc → VerificationResult
  | [] => ⟨true, total_records, validMessage total_records, none⟩
  | record :: rest =>
    if record.previous_hash ≠ previous_hash then
      ⟨false, total_records, chainBrokenMessage (record_number + 1), some (Nat.repr record.id)⟩
    else if verify_hash record = false then
      ⟨false, total_records, hashInvalidMessage (record_number + 1), some (Nat.repr record.id)⟩
    else
      verifyLoop total_records record.current_hash (record_number + 1) rest

/-- Stable insertion into a list sorted by ascending `id`. -/
def insertById (d : Doc) : List Doc → List Doc
  | [] => [d]
  | e :: rest => if d.id < e.id then d :: e :: rest else e :: insertById d rest

/-- The scan `collection.find().sort("_id", 1)`: the collection in ascending `_id`
order. -/
def sortById (l : List Doc) : List Doc := l.foldr insertById []

/-- Function `verify_chain(db)` from `hashing.py`: count the records, return valid on
an empty collection, otherwise scan in ascending `_id` order starting from the
genesis sentinel. -/
def verify_chain (collection : List Doc) : VerificationResult :=
  let total_records := collection.length
  if total_records = 0 then
    ⟨true, 0, emptyMessage, none⟩
  else
    verifyLoop total_records genesisHash 0 (sortById collection)

/-! ## `create_activity` (`backend/app.py`), chain-linking steps

Steps 1–2 of the endpoint (activity-type validation and the Climatiq emission
lookup) only produce the `emission` value and are modelled by taking the
emission as an input; authentication yields `user_id` and the current WIB time
yields `timestamp`, both taken as inputs. -/

/-- The lookup `collection.find_one(sort=[("_id", -1)])`: the document with the greatest
`_id`, or `none` on an empty collection. -/
def mostRecent : List Doc → Option Doc
  | [] => none
  | d :: rest =>
    match mostRecent rest with
    | none => some d
    | some m => if m.id < d.id then some d else some m

/-- The greatest `_id` present in the collection (0 when empty). -/
def maxId (l : List Doc) : Nat := l.foldr (fun d acc => Nat.max d.id acc) 0

/-- The store-assigned `_id` of the next insert: ObjectIds are strictly
increasing, modelled as one more than the greatest existing `_id`. -/
def nextId (l : List Doc) : Nat := maxId l + 1

/-- The payload of one append call: the authenticated `user_id`, the activity
type, the Climatiq emission value and the commit-time timestamp. -/
structure AppendReq where
  user_id : String
  activity_type : String
  emission : PyNum
  timestamp : String
deriving DecidableEq, Repr

/-- The tip read of `create_activity` (its first `await` on the collection):
`find_one(sort=[("_id", -1)])`, falling back to the genesis sentinel on an
empty collection. -/
def readTip (store : List Doc) : String :=
  match mostRecent store with
  | some last_doc => last_doc.current_hash
  | none => genesisHash

/-- The `new_doc` dictionary built by `create_activity` from a previously read
tip digest. -/
def mkDoc (store : List Doc) (r : AppendReq) (prev_hash : String) : Doc :=
  ⟨nextId store, r.user_id, r.activity_type, r.emission, r.timestamp, prev_hash,
   generate_hash prev_hash r.user_id r.activity_type r.emission r.timestamp⟩

/-- The `insert_one` commit of `create_activity` (its second `await` on the
collection), given the tip digest read earlier. -/
def commitDoc (store : List Doc) (r : AppendReq) (prev_hash : String) : List Doc :=
  store ++ [mkDoc store r prev_hash]

/-- Steps 3–4 of `create_activity`: read the tip digest (`find_one` sorted by
`_id` descending, genesis when absent), hash, and insert the new document.
Returns the new collection state and the inserted document. -/
def create_activity (store : List Doc) (user_id activity_type : String)
    (emission : PyNum) (timestamp : String) : List Doc × Doc :=
  let prev_hash := readTip store
  let new_doc := mkDoc store ⟨user_id, activity_type, emission, timestamp⟩ prev_hash
  (store ++ [new_doc], new_doc)

/-- Known-answer test: SHA-256 of the empty string (FIPS vector). -/
theorem sha256Hex_empty :
    sha256Hex "" = "e3b0c44298fc1c149afbf4c8996fb92427ae41e4649b934ca495991b7852b855" := by
  decide

/-- Known-answer test: SHA-256 of "abc" (FIPS vector). -/
theorem sha256Hex_abc :
    sha256Hex "abc" = "ba7816bf8f01cfea414140de5dae2223b00361a396177a9cb410ff61f20015ad" := by
  decide

/-! ## Specification-side view of the scan

These definitions restate, per index, what the running scan of `verify_chain`
checks: the digest a record is expected to link to, and whether a record fails
its discontinuity or digest check.  They are compared against the accumulator
implementation `verifyLoop` by the theorems below. -/

/-- The digest record `i` is expected to link to when the scan starts with
expectation `prev`: `prev` for the first record, the stored `current_hash` of
the predecessor otherwise. -/
def expectedPrevFrom (prev : String) (docs : List Doc) : Nat → String
  | 0 => prev
  | j + 1 => (docs.getD j dfltDoc).current_hash

/-- Record `i` fails the chain-linkage (discontinuity) check. -/
def discontinuityFrom (prev : String) (docs : List Doc) (i : Nat) : Bool :=
  (docs.getD i dfltDoc).previous_hash != expectedPrevFrom prev docs i

/-- Record `i` fails one of the two checks of the scan. -/
def badFrom (prev : String) (docs : List Doc) (i : Nat) : Bool :=
  discontinuityFrom prev docs i || ! verify_hash (docs.getD i dfltDoc)

/-- Discontinuity check with the genesis-initialized expectation. -/
def discontinuityAt (docs : List Doc) (i : Nat) : Bool :=
  discontinuityFrom genesisHash docs i

/-- Failure of record `i` in the genesis-initialized scan. -/
def chainBadAt (docs : List Doc) (i : Nat) : Bool :=
  badFrom genesisHash docs i

/-- The `_id`s of the collection are strictly increasing in list order (every
collection the store produces satisfies this: ObjectIds are unique and
monotone). -/
def idsStrictSorted : List Doc → Bool
  | [] => true
  | [_] => true
  | d :: e :: rest => decide (d.id < e.id) && idsStrictSorted (e :: rest)

/-- The whole-chain validity predicate: every record links to the running
expectation and carries a recomputable digest. -/
def chainOk (prev : String) : List Doc → Bool
  | [] => true
  | d :: rest => (d.previous_hash == prev) && verify_hash d && chainOk d.current_hash rest

/-- The stored digest of the last record of the list, or the incoming
expectation when the list is empty. -/
def lastHash (prev : String) : List Doc → String
  | [] => prev
  | d :: rest => lastHash d.current_hash rest

lemma expectedPrevFrom_cons (prev : String) (d : Doc) (rest : List Doc) (i : Nat) :
    expectedPrevFrom prev (d :: rest) (i + 1) = expectedPrevFrom d.current_hash rest i := by
  cases i <;> simp [expectedPrevFrom]

lemma discontinuityFrom_cons_succ (prev : String) (d : Doc) (rest : List Doc) (i : Nat) :
    discontinuityFrom prev (d :: rest) (i + 1) = discontinuityFrom d.current_hash rest i := by
  simp [discontinuityFrom, expectedPrevFrom_cons]

lemma discontinuityFrom_cons_zero (prev : String) (d : Doc) (rest : List Doc) :
    discontinuityFrom prev (d :: rest) 0 = (d.previous_hash != prev) := by
  simp [discontinuityFrom, expectedPrevFrom]

lemma badFrom_cons_succ (prev : String) (d : Doc) (rest : List Doc) (i : Nat) :
    badFrom prev (d :: rest) (i + 1) = badFrom d.current_hash rest i := by
  simp [badFrom, discontinuityFrom_cons_succ]

lemma badFrom_cons_zero (prev : String) (d : Doc) (rest : List Doc) :
    badFrom prev (d :: rest) 0 = ((d.previous_hash != prev) || ! verify_hash d) := by
  simp [badFrom, discontinuityFrom_cons_zero]

lemma verifyLoop_total (docs : List Doc) :
    ∀ total prev rn, (verifyLoop total prev rn docs).total_records = total := by
  induction docs with
  | nil => intro total prev rn; rfl
  | cons d rest ih =>
    intro total prev rn
    simp only [verifyLoop]
    by_cases h1 : d.previous_hash ≠ prev
    · rw [if_pos h1]
    · rw [if_neg h1]
      by_cases h2 : verify_hash d = false
      · rw [if_pos h2]
      · rw [if_neg h2]; exact ih total d.current_hash (rn + 1)

lemma verifyLoop_valid_of (docs : List Doc) :
    ∀ prev total rn, (∀ i, i < docs.length → badFrom prev docs i = false) →
      verifyLoop total prev rn docs = ⟨true, total, validMessage total, none⟩ := by
  induction docs with
  | nil => intro prev total rn _; rfl
  | cons d rest ih =>
    intro prev total rn h
    have h0 := h 0 (by simp)
    rw [badFrom_cons_zero] at h0
    have h0' := Bool.or_eq_false_iff.mp h0
    have hprev : d.previous_hash = prev := by
      have := h0'.1; simpa [bne] using this
    have hvh : verify_hash d = true := by
      have := h0'.2; simpa using this
    simp only [verifyLoop]
    rw [if_neg (by simp [hprev]), if_neg (by simp [hvh])]
    exact ih d.current_hash total (rn + 1) (fun i hi => by
      have := h (i + 1) (by simpa using Nat.succ_lt_succ hi)
      rwa [badFrom_cons_succ] at this)

lemma verifyLoop_fail_at (docs : List Doc) :
    ∀ prev total rn i, i < docs.length → badFrom prev docs i = true →
      (∀ j, j < i → badFrom prev docs j = false) →
      verifyLoop total prev rn docs =
        ⟨false, total,
         if discontinuityFrom prev docs i = true then chainBrokenMessage (rn + i + 1)
         else hashInvalidMessage (rn + i + 1),
         some (Nat.repr ((docs.getD i dfltDoc).id))⟩ := by
  induction docs with
  | nil => intro prev total rn i hi; exact absurd hi (by simp)
  | cons d rest ih =>
    intro prev total rn i hi hbad hmin
    cases i with
    | zero =>
      by_cases hd : d.previous_hash = prev
      · have hdisc : discontinuityFrom prev (d :: rest) 0 = false := by
          rw [discontinuityFrom_cons_zero]; simp [hd]
        have hvh : verify_hash d = false := by
          rw [badFrom_cons_zero] at hbad
          rcases Bool.or_eq_true_iff.mp hbad with hb | hb
          · exact absurd hb (by simp [bne, hd])
          · simpa using hb
        simp only [verifyLoop]
        rw [if_neg (by simp [hd]), if_pos hvh, hdisc]
        simp
      · have hdisc : discontinuityFrom prev (d :: rest) 0 = true := by
          rw [discontinuityFrom_cons_zero]; simpa [bne_iff_ne] using hd
        simp only [verifyLoop]
        rw [if_pos hd, hdisc]
        simp
    | succ j =>
      have h0 := hmin 0 (Nat.succ_pos j)
      rw [badFrom_cons_zero] at h0
      have h0' := Bool.or_eq_false_iff.mp h0
      have hprev : d.previous_hash = prev := by
        have := h0'.1; simpa [bne] using this
      have hvh : verify_hash d = true := by
        have := h0'.2; simpa using this
      simp only [verifyLoop]
      rw [if_neg (by simp [hprev]), if_neg (by simp [hvh])]
      rw [show rn + (j + 1) + 1 = (rn + 1) + j + 1 by omega,
          discontinuityFrom_cons_succ, List.getD_cons_succ]
      exact ih d.current_hash total (rn + 1) j (by simpa using hi)
        (by rwa [badFrom_cons_succ] at hbad)
        (fun k hk => by
          have := hmin (k + 1) (Nat.succ_lt_succ hk)
          rwa [badFrom_cons_succ] at this)

lemma verifyLoop_valid_eq_chainOk (docs : List Doc) :
    ∀ prev total rn, (verifyLoop total prev rn docs).valid = chainOk prev docs := by
  induction docs with
  | nil => intro prev total rn; rfl
  | cons d rest ih =>
    intro prev total rn
    simp only [verifyLoop, chainOk]
    by_cases h1 : d.previous_hash = prev
    · rw [if_neg (by simp [h1])]
      by_cases h2 : verify_hash d = true
      · rw [if_neg (by simp [h2])]
        simp [h1, h2, ih d.current_hash total (rn + 1)]
      · rw [if_pos (by simpa using h2)]
        simp [h1, Bool.eq_false_iff.mpr h2]
    · rw [if_pos h1]
      simp [bne, h1, beq_false_of_ne h1]

lemma badFrom_eq_false_of_chainOk (docs : List Doc) :
    ∀ prev, chainOk prev docs = true → ∀ i, i < docs.length → badFrom prev docs i = false := by
  induction docs with
  | nil => intro prev _ i hi; exact absurd hi (by simp)
  | cons d rest ih =>
    intro prev h i hi
    simp only [chainOk, Bool.and_eq_true] at h
    obtain ⟨⟨hb, hv⟩, hrest⟩ := h
    cases i with
    | zero =>
      rw [badFrom_cons_zero]
      simp [bne, hb, hv]
    | succ j =>
      rw [badFrom_cons_succ]
      exact ih d.current_hash hrest j (by simpa using hi)

lemma idsStrictSorted_tail (d : Doc) (rest : List Doc)
    (h : idsStrictSorted (d :: rest) = true) : idsStrictSorted rest = true := by
  cases rest with
  | nil => rfl
  | cons e t =>
    have hh : (decide (d.id < e.id) && idsStrictSorted (e :: t)) = true := h
    rw [Bool.and_eq_true] at hh
    exact hh.2

lemma idsStrictSorted_head_lt (d e : Doc) (t : List Doc)
    (h : idsStrictSorted (d :: e :: t) = true) : d.id < e.id := by
  have hh : (decide (d.id < e.id) && idsStrictSorted (e :: t)) = true := h
  rw [Bool.and_eq_true] at hh
  exact of_decide_eq_true hh.1

lemma sortById_eq_self (l : List Doc) (h : idsStrictSorted l = true) :
    sortById l = l := by
  induction l with
  | nil => rfl
  | cons d rest ih =>
    have hrest := idsStrictSorted_tail d rest h
    show insertById d (sortById rest) = d :: rest
    rw [ih hrest]
    cases rest with
    | nil => rfl
    | cons e t =>
      show insertById d (e :: t) = d :: e :: t
      simp only [insertById]
      rw [if_pos (idsStrictSorted_head_lt d e t h)]

lemma verify_chain_total (docs : List Doc) :
    (verify_chain docs).total_records = docs.length := by
  unfold verify_chain
  by_cases h : docs.length = 0
  · rw [if_pos h, h]
  · rw [if_neg h]
    exact verifyLoop_total (sortById docs) docs.length genesisHash 0

lemma verify_chain_valid_eq_chainOk (docs : List Doc) :
    (verify_chain docs).valid = chainOk genesisHash (sortById docs) := by
  unfold verify_chain
  by_cases h : docs.length = 0
  · have hnil : docs = [] := List.length_eq_zero.mp h
    subst hnil
    rfl
  · rw [if_neg h]
    exact verifyLoop_valid_eq_chainOk (sortById docs) genesisHash docs.length 0

lemma chainOk_append (l : List Doc) :
    ∀ prev d, chainOk prev (l ++ [d]) =
      (chainOk prev l && ((d.previous_hash == lastHash prev l) && verify_hash d)) := by
  induction l with
  | nil => intro prev d; simp [chainOk, lastHash]
  | cons x rest ih =>
    intro prev d
    simp only [List.cons_append, List.append_eq, chainOk, lastHash, ih x.current_hash d,
      Bool.and_assoc]

lemma lastHash_getLast (l : List Doc) :
    ∀ prev, lastHash prev l =
      (match l.getLast? with
       | none => prev
       | some d => d.current_hash) := by
  induction l with
  | nil => intro prev; rfl
  | cons d rest ih =>
    intro prev
    cases rest with
    | nil => rfl
    | cons e t =>
      show lastHash d.current_hash (e :: t) = _
      rw [ih d.current_hash, List.getLast?_cons_cons]
      cases hg : (e :: t).getLast? with
      | none => exact absurd hg (by simp)
      | some m => rfl

lemma head_id_le_getLast (xs : List Doc) :
    ∀ (x : Doc), idsStrictSorted (x :: xs) = true →
      ∀ m, (x :: xs).getLast? = some m → x.id ≤ m.id := by
  induction xs with
  | nil =>
    intro x _ m hm
    have : x = m := by simpa using hm
    subst this; exact Nat.le_refl _
  | cons y t ih =>
    intro x h m hm
    rw [List.getLast?_cons_cons] at hm
    have h1 : x.id < y.id := idsStrictSorted_head_lt x y t h
    have h2 : y.id ≤ m.id := ih y (idsStrictSorted_tail x (y :: t) h) m hm
    omega

lemma mostRecent_sorted (l : List Doc) (h : idsStrictSorted l = true) :
    mostRecent l = l.getLast? := by
  induction l with
  | nil => rfl
  | cons d rest ih =>
    cases rest with
    | nil => rfl
    | cons e t =>
      have hrest := idsStrictSorted_tail d (e :: t) h
      have hm : ∃ m, (e :: t).getLast? = some m := by
        cases hg : (e :: t).getLast? with
        | none => exact absurd hg (by simp)
        | some m => exact ⟨m, rfl⟩
      obtain ⟨m, hg⟩ := hm
      show (match mostRecent (e :: t) with
            | none => some d
            | some mm => if mm.id < d.id then some d else some mm) = _
      have hd : d.id < m.id := by
        have h1 : d.id < e.id := idsStrictSorted_head_lt d e t h
        have h2 : e.id ≤ m.id := head_id_le_getLast t e hrest m hg
        omega
      rw [ih hrest, List.getLast?_cons_cons, hg]
      show (if m.id < d.id then some d else some m) = some m
      rw [if_neg (by omega)]

lemma mem_id_le_maxId (l : List Doc) : ∀ e ∈ l, e.id ≤ maxId l := by
  induction l with
  | nil => intro e he; exact absurd he (by simp)
  | cons d rest ih =>
    intro e he
    rcases List.mem_cons.mp he with h | h
    · subst h; exact Nat.le_max_left _ _
    · exact Nat.le_trans (ih e h) (Nat.le_max_right _ _)

lemma idsStrictSorted_append_last (l : List Doc) (d : Doc)
    (h : idsStrictSorted l = true) (hgt : ∀ e ∈ l, e.id < d.id) :
    idsStrictSorted (l ++ [d]) = true := by
  induction l with
  | nil => rfl
  | cons x rest ih =>
    cases rest with
    | nil =>
      show (decide (x.id < d.id) && idsStrictSorted [d]) = true
      simp [idsStrictSorted, hgt x (by simp)]
    | cons y t =>
      have hys : idsStrictSorted ((y :: t) ++ [d]) = true :=
        ih (idsStrictSorted_tail x (y :: t) h) (fun e he => hgt e (List.mem_cons_of_mem x he))
      rw [List.cons_append] at hys
      show (decide (x.id < y.id) && idsStrictSorted (y :: (t ++ [d]))) = true
      simp [idsStrictSorted_head_lt x y t h, hys]

lemma verify_chain_eq_loop (docs : List Doc) (h0 : docs.length ≠ 0) :
    verify_chain docs = verifyLoop docs.length genesisHash 0 (sortById docs) := by
  simp only [verify_chain]
  rw [if_neg h0]

/-- C1: on a stored sequence (ascending `_id` order), `verify_chain` scans the
records in order with a running expected previous digest initialized to the
genesis sentinel; a record failing the discontinuity check is reported with
the chain-broken message, otherwise a record failing the recomputed-digest
check is reported with the hash-invalid message, the first failing record
only; if no record fails, the result is valid with the total record count. -/
theorem verify_chain_scan_characterization (docs : List Doc)
    (hs : idsStrictSorted docs = true) :
    ((∀ i, i < docs.length → chainBadAt docs i = false) →
      (verify_chain docs).valid = true ∧ (verify_chain docs).total_records = docs.length)
  ∧ (∀ i, i < docs.length → chainBadAt docs i = true →
      (∀ j, j < i → chainBadAt docs j = false) →
      verify_chain docs =
        ⟨false, docs.length,
         if discontinuityAt docs i = true then chainBrokenMessage (i + 1)
         else hashInvalidMessage (i + 1),
         some (Nat.repr ((docs.getD i dfltDoc).id))⟩) := by
  constructor
  · intro h
    by_cases h0 : docs.length = 0
    · have hnil : docs = [] := List.length_eq_zero.mp h0
      subst hnil
      exact ⟨rfl, rfl⟩
    · rw [verify_chain_eq_loop docs h0, sortById_eq_self docs hs,
        verifyLoop_valid_of docs genesisHash docs.length 0 h]
      exact ⟨rfl, rfl⟩
  · intro i hi hbad hmin
    have h0 : docs.length ≠ 0 := by omega
    rw [verify_chain_eq_loop docs h0, sortById_eq_self docs hs,
      verifyLoop_fail_at docs genesisHash docs.length 0 i hi hbad hmin]
    simp only [discontinuityAt, Nat.zero_add]

/-- Witness for C1: a one-record collection whose record does not link to the
genesis sentinel is reported as a discontinuity at record #1. -/
theorem verify_chain_scan_characterization_witness :
    verify_chain [⟨1, "u", "car", PyNum.int 1, "t", "x", "y"⟩] =
      ⟨false, 1, chainBrokenMessage 1, some "1"⟩ := by
  have h := (verify_chain_scan_characterization
      [⟨1, "u", "car", PyNum.int 1, "t", "x", "y"⟩] (by decide)).2 0 (by decide) (by decide)
      (fun j hj => absurd hj (by omega))
  rw [h, if_pos (by decide)]
  decide

/-- Append the whole request list in order with `create_activity`. -/
def appendAll (store : List Doc) : List AppendReq → List Doc
  | [] => store
  | r :: rest =>
    appendAll (create_activity store r.user_id r.activity_type r.emission r.timestamp).1 rest

lemma readTip_eq_lastHash (store : List Doc) (hs : idsStrictSorted store = true) :
    readTip store = lastHash genesisHash store := by
  unfold readTip
  rw [mostRecent_sorted store hs, lastHash_getLast]
  cases store.getLast? <;> rfl

lemma verify_hash_mkDoc (store : List Doc) (r : AppendReq) (prev : String) :
    verify_hash (mkDoc store r prev) = true := by
  simp [verify_hash, mkDoc]

lemma create_activity_preserves (store : List Doc) (r : AppendReq)
    (hs : idsStrictSorted store = true) (hok : chainOk genesisHash store = true) :
    idsStrictSorted (create_activity store r.user_id r.activity_type r.emission r.timestamp).1 = true
  ∧ chainOk genesisHash (create_activity store r.user_id r.activity_type r.emission r.timestamp).1 = true
  ∧ (create_activity store r.user_id r.activity_type r.emission r.timestamp).1.length
      = store.length + 1 := by
  have hfst : (create_activity store r.user_id r.activity_type r.emission r.timestamp).1
      = store ++ [mkDoc store r (readTip store)] := rfl
  refine ⟨?_, ?_, ?_⟩
  · rw [hfst]
    exact idsStrictSorted_append_last store _ hs
      (fun e he => Nat.lt_succ_of_le (mem_id_le_maxId store e he))
  · rw [hfst, chainOk_append, hok, verify_hash_mkDoc]
    have hprev : (mkDoc store r (readTip store)).previous_hash = lastHash genesisHash store := by
      show readTip store = lastHash genesisHash store
      exact readTip_eq_lastHash store hs
    rw [hprev]
    simp
  · rw [hfst]
    simp

/-- C2: starting from a store on which verification succeeds, any number of
sequential `create_activity` appends leaves `verify_chain` reporting valid
with a total record count equal to the number of stored records
(`init.length + reqs.length`, i.e. `N` from an empty store). -/
theorem sequential_appends_verify (init : List Doc) (reqs : List AppendReq)
    (hs : idsStrictSorted init = true)
    (hvalid : (verify_chain init).valid = true) :
    (verify_chain (appendAll init reqs)).valid = true
  ∧ (verify_chain (appendAll init reqs)).total_records = (appendAll init reqs).length
  ∧ (appendAll init reqs).length = init.length + reqs.length := by
  have hok : chainOk genesisHash init = true := by
    rw [verify_chain_valid_eq_chainOk, sortById_eq_self init hs] at hvalid
    exact hvalid
  have main : ∀ (rs : List AppendReq) (s : List Doc), idsStrictSorted s = true →
      chainOk genesisHash s = true →
      idsStrictSorted (appendAll s rs) = true ∧ chainOk genesisHash (appendAll s rs) = true ∧
      (appendAll s rs).length = s.length + rs.length := by
    intro rs
    induction rs with
    | nil => intro s h1 h2; exact ⟨h1, h2, by simp [appendAll]⟩
    | cons r rest ih =>
      intro s h1 h2
      have hp := create_activity_preserves s r h1 h2
      have hrec := ih _ hp.1 hp.2.1
      refine ⟨hrec.1, hrec.2.1, ?_⟩
      rw [show appendAll s (r :: rest)
          = appendAll (create_activity s r.user_id r.activity_type r.emission r.timestamp).1 rest
          from rfl, hrec.2.2, hp.2.2]
      simp [List.length_cons]
      omega
  obtain ⟨h1, h2, h3⟩ := main reqs init hs hok
  refine ⟨?_, verify_chain_total _, h3⟩
  rw [verify_chain_valid_eq_chainOk, sortById_eq_self _ h1]
  exact h2

/-- Witness for C2: one append onto the empty store verifies valid with one
record. -/
theorem sequential_appends_verify_witness :
    (verify_chain (appendAll [] [⟨"u1", "car", PyNum.int 1, "t1"⟩])).valid = true
  ∧ (verify_chain (appendAll [] [⟨"u1", "car", PyNum.int 1, "t1"⟩])).total_records = 1 := by
  have h := sequential_appends_verify [] [⟨"u1", "car", PyNum.int 1, "t1"⟩] (by decide) (by decide)
  refine ⟨h.1, ?_⟩
  rw [h.2.1, h.2.2]
  decide

lemma getD_set_ne (l : List Doc) :
    ∀ (i j : Nat) (d' : Doc), i ≠ j → (l.set i d').getD j dfltDoc = l.getD j dfltDoc := by
  induction l with
  | nil => intro i j d' _; simp
  | cons d rest ih =>
    intro i j d' hij
    cases i with
    | zero =>
      cases j with
      | zero => exact absurd rfl hij
      | succ k => rw [List.set_cons_zero]; simp
    | succ m =>
      cases j with
      | zero => rw [List.set_cons_succ]; simp
      | succ k =>
        rw [List.set_cons_succ]
        simp only [List.getD_cons_succ]
        exact ih m k d' (by omega)

lemma getD_set_self (l : List Doc) :
    ∀ (i : Nat) (d' : Doc), i < l.length → (l.set i d').getD i dfltDoc = d' := by
  induction l with
  | nil => intro i d' hi; exact absurd hi (by simp)
  | cons d rest ih =>
    intro i d' hi
    cases i with
    | zero => rfl
    | succ m =>
      rw [List.set_cons_succ]
      simp only [List.getD_cons_succ]
      exact ih m d' (by simpa using hi)

lemma expectedPrevFrom_set_lt (prev : String) (docs : List Doc) (i j : Nat) (d' : Doc)
    (hj : j ≤ i) : expectedPrevFrom prev (docs.set i d') j = expectedPrevFrom prev docs j := by
  cases j with
  | zero => rfl
  | succ k =>
    simp only [expectedPrevFrom]
    rw [getD_set_ne docs i k d' (by omega)]

lemma badFrom_set_lt (prev : String) (docs : List Doc) (i j : Nat) (d' : Doc)
    (hj : j < i) : badFrom prev (docs.set i d') j = badFrom prev docs j := by
  simp only [badFrom, discontinuityFrom]
  rw [getD_set_ne docs i j d' (by omega), expectedPrevFrom_set_lt prev docs i j d' (by omega)]

lemma idsStrictSorted_set (docs : List Doc) :
    ∀ (i : Nat) (d' : Doc), idsStrictSorted docs = true →
      d'.id = (docs.getD i dfltDoc).id →
      idsStrictSorted (docs.set i d') = true := by
  induction docs with
  | nil => intro i d' h _; simpa using h
  | cons d rest ih =>
    intro i d' h hid
    cases i with
    | zero =>
      have hid' : d'.id = d.id := by simpa using hid
      rw [List.set_cons_zero]
      cases rest with
      | nil => rfl
      | cons e t =>
        show (decide (d'.id < e.id) && idsStrictSorted (e :: t)) = true
        rw [hid']
        exact h
    | succ j =>
      rw [List.set_cons_succ]
      have hrest := idsStrictSorted_tail d rest h
      have hid' : d'.id = (rest.getD j dfltDoc).id := by simpa using hid
      have hs' := ih j d' hrest hid'
      cases rest with
      | nil => simpa using h
      | cons e t =>
        cases j with
        | zero =>
          have he : d'.id = e.id := by simpa using hid'
          simp only [List.set_cons_zero] at hs' ⊢
          show (decide (d.id < d'.id) && idsStrictSorted (d' :: t)) = true
          rw [Bool.and_eq_true]
          exact ⟨decide_eq_true (he ▸ idsStrictSorted_head_lt d e t h), hs'⟩
        | succ k =>
          simp only [List.set_cons_succ] at hs' ⊢
          show (decide (d.id < e.id) && idsStrictSorted (e :: t.set k d')) = true
          rw [Bool.and_eq_true]
          exact ⟨decide_eq_true (idsStrictSorted_head_lt d e t h), hs'⟩

/-- C3 (amended): on a chain that verifies valid, replacing the record at
position `i` in storage by a mutated record with the same `_id` that fails its
own check makes full verification report invalid with the failing record id
equal to that record; if the mutation broke the `previous_hash` link (as
mutating `previous_hash` does), the failure is reported as the discontinuity
message. -/
theorem tamper_detected_at_failing_record (docs : List Doc) (i : Nat) (d' : Doc)
    (hs : idsStrictSorted docs = true)
    (hvalid : (verify_chain docs).valid = true)
    (hi : i < docs.length)
    (hid : d'.id = (docs.getD i dfltDoc).id)
    (hbad : chainBadAt (docs.set i d') i = true) :
    (verify_chain (docs.set i d')).valid = false
  ∧ (verify_chain (docs.set i d')).invalid_record_id = some (Nat.repr d'.id)
  ∧ (d'.previous_hash ≠ expectedPrevFrom genesisHash docs i →
      (verify_chain (docs.set i d')).message = chainBrokenMessage (i + 1)) := by
  have hok : chainOk genesisHash docs = true := by
    rw [verify_chain_valid_eq_chainOk, sortById_eq_self docs hs] at hvalid
    exact hvalid
  have hs' : idsStrictSorted (docs.set i d') = true := idsStrictSorted_set docs i d' hs hid
  have hlen : (docs.set i d').length = docs.length := docs.length_set i d'
  have hi' : i < (docs.set i d').length := by omega
  have hmin : ∀ j, j < i → chainBadAt (docs.set i d') j = false := by
    intro j hj
    show badFrom genesisHash (docs.set i d') j = false
    rw [badFrom_set_lt genesisHash docs i j d' hj]
    exact badFrom_eq_false_of_chainOk docs genesisHash hok j (by omega)
  have h0 : (docs.set i d').length ≠ 0 := by omega
  have hfail := verifyLoop_fail_at (docs.set i d') genesisHash (docs.set i d').length 0 i hi'
    hbad hmin
  have hvc : verify_chain (docs.set i d') =
      ⟨false, (docs.set i d').length,
       if discontinuityFrom genesisHash (docs.set i d') i = true then chainBrokenMessage (0 + i + 1)
       else hashInvalidMessage (0 + i + 1),
       some (Nat.repr (((docs.set i d').getD i dfltDoc).id))⟩ := by
    rw [verify_chain_eq_loop _ h0, sortById_eq_self _ hs', hfail]
  rw [getD_set_self docs i d' hi] at hvc
  refine ⟨by rw [hvc], by rw [hvc], ?_⟩
  intro hprev
  have hdisc : discontinuityFrom genesisHash (docs.set i d') i = true := by
    simp only [discontinuityFrom]
    rw [getD_set_self docs i d' hi, expectedPrevFrom_set_lt genesisHash docs i i d' (by omega)]
    simpa [bne_iff_ne] using hprev
  rw [hvc, if_pos hdisc]
  show chainBrokenMessage (0 + i + 1) = chainBrokenMessage (i + 1)
  rw [Nat.zero_add]

/-- A one-record chain produced by one append. -/
def c3Chain : List Doc := (create_activity [] "u1" "car" (PyNum.int 5) "t1").1

/-- The committed record of `c3Chain` with its store-assigned `record_id`
rewritten in storage. -/
def c3IdMutated : List Doc := c3Chain.map (fun d => { d with id := 7 })

/-- Counterexample for C3 as stated: the chain verifies valid; mutating one
field (`record_id`) of the one committed record changes the stored data, yet
full verification still reports valid — the mutation is not detected. -/
theorem tamper_record_id_mutation_undetected :
    (verify_chain c3Chain).valid = true
  ∧ c3IdMutated ≠ c3Chain
  ∧ (verify_chain c3IdMutated).valid = true := by
  refine ⟨by decide, by decide, by decide⟩

/-- The committed record of `c3Chain` with its `previous_hash` mutated. -/
def c3PrevTampered : Doc :=
  { (c3Chain.getD 0 dfltDoc) with previous_hash := String.mk (List.replicate 64 '1') }

/-- Witness for C3 (amended): mutating `previous_hash` of the committed record
is reported as a discontinuity at that record. -/
theorem tamper_detected_at_failing_record_witness :
    (verify_chain (c3Chain.set 0 c3PrevTampered)).valid = false
  ∧ (verify_chain (c3Chain.set 0 c3PrevTampered)).invalid_record_id = some "1"
  ∧ (verify_chain (c3Chain.set 0 c3PrevTampered)).message = chainBrokenMessage 1 := by
  have h := tamper_detected_at_failing_record c3Chain 0 c3PrevTampered (by decide) (by decide)
    (by decide) (by decide) (by decide)
  exact ⟨h.1, h.2.1.trans (by decide), h.2.2 (by decide)⟩

/-- The spec's example scenario: three records for owner `"u1"` with emissions
`4.87`, `1.20`, `9.00` appended by `create_activity` (ids 1, 2, 3). -/
def c4Store3 : List Doc :=
  (create_activity
    (create_activity
      (create_activity [] "u1" "car" (PyNum.float 487 2) "2024-01-01T10:00:00").1
      "u1" "car" (PyNum.float 120 2) "2024-01-01T11:00:00").1
    "u1" "car" (PyNum.float 900 2) "2024-01-01T12:00:00").1

/-- The scenario store after directly rewriting the second record's emission
to `1.21` in storage. -/
def c4Tampered : List Doc :=
  c4Store3.map (fun d => if d.id = 2 then { d with emission := PyNum.float 121 2 } else d)

/-- Counterexample for C4 as stated: in the example scenario the untampered
chain verifies valid with 3 records, but after rewriting the second record's
emission the failure is NOT reported at the third record with the
chain-discontinuity message — the reported id is not the third record's and
the message is not the discontinuity message. -/
theorem scenario_tamper_not_reported_at_third :
    (verify_chain c4Store3).valid = true
  ∧ (verify_chain c4Store3).total_records = 3
  ∧ (c4Store3.getD 2 dfltDoc).id = 3
  ∧ (verify_chain c4Tampered).valid = false
  ∧ (verify_chain c4Tampered).invalid_record_id ≠ some "3"
  ∧ (verify_chain c4Tampered).message ≠ chainBrokenMessage 3 := by
  refine ⟨by decide, by decide, by decide, by decide, by decide, by decide⟩

/-- C4 (amended): in the example scenario, rewriting the second record's
emission to `1.21` makes full verification fail at the SECOND record with the
digest-mismatch message — record 2's stored `current_hash` no longer matches
the digest recomputed from its (mutated) fields, and this check fires before
record 3's link is ever examined. -/
theorem scenario_tamper_digest_mismatch_at_second :
    verify_chain c4Store3 = ⟨true, 3, validMessage 3, none⟩
  ∧ verify_chain c4Tampered = ⟨false, 3, hashInvalidMessage 2, some "2"⟩ := by
  refine ⟨by decide, by decide⟩

lemma mostRecent_ne_none (x : Doc) (r : List Doc) : mostRecent (x :: r) ≠ none := by
  cases hmt : mostRecent r with
  | none => simp [mostRecent, hmt]
  | some m => by_cases hlt : m.id < x.id <;> simp [mostRecent, hmt, hlt]

lemma mostRecent_spec (l : List Doc) :
    ∀ d, mostRecent l = some d → d ∈ l ∧ ∀ e ∈ l, e.id ≤ d.id := by
  induction l with
  | nil => intro d hd; exact absurd hd (by simp [mostRecent])
  | cons x rest ih =>
    intro d hd
    cases hm : mostRecent rest with
    | none =>
      have hx : d = x := by
        simp only [mostRecent, hm] at hd
        exact (Option.some_inj.mp hd).symm
      subst hx
      cases rest with
      | nil =>
        exact ⟨by simp, by intro e he; simp at he; subst he; exact Nat.le_refl _⟩
      | cons y t => exact absurd hm (mostRecent_ne_none y t)
    | some m =>
      obtain ⟨hmem, hmax⟩ := ih m hm
      simp only [mostRecent, hm] at hd
      by_cases hlt : m.id < x.id
      · rw [if_pos hlt] at hd
        have hx : d = x := by simpa using hd.symm
        subst hx
        refine ⟨by simp, ?_⟩
        intro e he
        rcases List.mem_cons.mp he with h | h
        · subst h; exact Nat.le_refl _
        · exact Nat.le_trans (hmax e h) (Nat.le_of_lt hlt)
      · rw [if_neg hlt] at hd
        have hx : d = m := by simpa using hd.symm
        subst hx
        refine ⟨List.mem_cons_of_mem x hmem, ?_⟩
        intro e he
        rcases List.mem_cons.mp he with h | h
        · subst h; omega
        · exact hmax e h

/-- C6: the `previous_digest` of an appended record is the tip read by
`find_one` sorted by `_id` descending — the `current_hash` of the globally
most-recently committed record, the record of greatest `_id` regardless of its
owner — and the genesis sentinel when the store is empty; it does not depend
on the appending request's owner or payload. -/
theorem append_reads_global_tip (store : List Doc) (u1 a1 : String) (e1 : PyNum) (t1 : String)
    (u2 a2 : String) (e2 : PyNum) (t2 : String) :
    ((create_activity store u1 a1 e1 t1).2.previous_hash = readTip store)
  ∧ (create_activity store u1 a1 e1 t1).2.previous_hash
      = (create_activity store u2 a2 e2 t2).2.previous_hash
  ∧ (store = [] → (create_activity store u1 a1 e1 t1).2.previous_hash = genesisHash)
  ∧ (∀ d, mostRecent store = some d → d ∈ store ∧ ∀ e ∈ store, e.id ≤ d.id)
  ∧ (store ≠ [] → ∃ d, mostRecent store = some d ∧ readTip store = d.current_hash) := by
  refine ⟨rfl, rfl, ?_, mostRecent_spec store, ?_⟩
  · intro h; subst h; rfl
  · intro hne
    cases store with
    | nil => exact absurd rfl hne
    | cons x rest =>
      cases hm : mostRecent rest with
      | none => exact ⟨x, by simp [mostRecent, hm], by simp [readTip, mostRecent, hm]⟩
      | some m =>
        by_cases hlt : m.id < x.id
        · exact ⟨x, by simp [mostRecent, hm, hlt], by simp [readTip, mostRecent, hm, hlt]⟩
        · exact ⟨m, by simp [mostRecent, hm, hlt], by simp [readTip, mostRecent, hm, hlt]⟩

/-- A committed record with a literal stored digest, for the C6 witness. -/
def c6Doc : Doc := ⟨1, "uA", "car", PyNum.int 2, "t", "p", "h"⟩

/-- Witness for C6: appending over a store whose most recent record is
`c6Doc` links to its stored digest; appending over the empty store links to
the genesis sentinel. -/
theorem append_reads_global_tip_witness :
    (create_activity [c6Doc] "uB" "bus" (PyNum.int 3) "t2").2.previous_hash = "h"
  ∧ (create_activity [] "uB" "bus" (PyNum.int 3) "t2").2.previous_hash = genesisHash := by
  have h1 := (append_reads_global_tip [c6Doc] "uB" "bus" (PyNum.int 3) "t2"
    "uC" "car" (PyNum.int 4) "t3").1
  have h2 := (append_reads_global_tip [] "uB" "bus" (PyNum.int 3) "t2"
    "uC" "car" (PyNum.int 4) "t3").2.2.1 rfl
  exact ⟨h1.trans (by decide), h2⟩

lemma hexDigit_mem (n : Nat) : hexDigit n ∈ hexDigitChars := by
  unfold hexDigit
  have h : n % 16 < 16 := Nat.mod_lt _ (by norm_num)
  generalize hm : n % 16 = m at h
  interval_cases m <;> decide

lemma sha256Hex_length (s : String) : (sha256Hex s).length = 64 := by
  show (String.mk (List.flatten ((h8Words (sha256Words s)).map wordHex))).length = 64
  rw [show ∀ (l : List Char), (String.mk l).length = l.length from fun _ => rfl]
  simp [h8Words, wordHex]

lemma sha256Hex_mem_hex (s : String) : ∀ c ∈ (sha256Hex s).data, c ∈ hexDigitChars := by
  intro c hc
  have hc' : c ∈ List.flatten ((h8Words (sha256Words s)).map wordHex) := hc
  rw [List.mem_flatten] at hc'
  obtain ⟨w, hw, hcw⟩ := hc'
  rw [List.mem_map] at hw
  obtain ⟨x, _, hwx⟩ := hw
  subst hwx
  simp only [wordHex, List.mem_cons, List.not_mem_nil, or_false] at hcw
  rcases hcw with h | h | h | h | h | h | h | h <;> (subst h; exact hexDigit_mem _)

/-- C7: `generate_hash` is a pure function — equal inputs give equal outputs —
equal to the SHA-256 hex digest of the concatenated payload
`previous_hash ++ user_id ++ activity_type ++ str(emission) ++ timestamp`; its
output always has 64 characters, all lowercase hexadecimal digits; and the
genesis sentinel is the same fixed length filled with the character `0`. -/
theorem generate_hash_digest_contract (p u a : String) (e : PyNum) (t : String) :
    generate_hash p u a e t = generate_hash p u a e t
  ∧ generate_hash p u a e t = sha256Hex (p ++ u ++ a ++ pyStr e ++ t)
  ∧ (generate_hash p u a e t).length = 64
  ∧ (∀ c ∈ (generate_hash p u a e t).data, c ∈ hexDigitChars)
  ∧ get_genesis_hash = String.mk (List.replicate 64 '0')
  ∧ get_genesis_hash.length = 64 := by
  exact ⟨rfl, rfl, sha256Hex_length _, sha256Hex_mem_hex _, rfl, by decide⟩

/-- Witness for C7: a concrete digest has 64 characters and its character
`'1'` is a hexadecimal digit. -/
theorem generate_hash_digest_contract_witness :
    (generate_hash genesisHash "u" "car" (PyNum.int 4) "t").length = 64
  ∧ '1' ∈ hexDigitChars := by
  have h := generate_hash_digest_contract genesisHash "u" "car" (PyNum.int 4) "t"
  exact ⟨h.2.2.1, h.2.2.2.1 '1' (by decide)⟩

/-- C9: the digest recomputed for a record reads only
`(previous_hash, user_id, activity_type, emission, timestamp)`; two records
agreeing on those five fields but assigned different `record_id`s get equal
digests — `_id` is never an input of `generate_hash`. -/
theorem digest_independent_of_record_id (d1 d2 : Doc)
    (_hid : d1.id ≠ d2.id)
    (hp : d1.previous_hash = d2.previous_hash) (hu : d1.user_id = d2.user_id)
    (ha : d1.activity_type = d2.activity_type) (he : d1.emission = d2.emission)
    (ht : d1.timestamp = d2.timestamp) :
    generate_hash d1.previous_hash d1.user_id d1.activity_type d1.emission d1.timestamp
      = generate_hash d2.previous_hash d2.user_id d2.activity_type d2.emission d2.timestamp := by
  rw [hp, hu, ha, he, ht]

/-- A record with `_id = 1`, for the C9 witness. -/
def c9d1 : Doc := ⟨1, "u", "car", PyNum.int 1, "t", "p", "x"⟩

/-- The same payload as `c9d1` under a different store-assigned `_id`. -/
def c9d2 : Doc := ⟨2, "u", "car", PyNum.int 1, "t", "p", "y"⟩

/-- Witness for C9: two records differing only in `_id` (and stored digest)
get the same recomputed digest. -/
theorem digest_independent_of_record_id_witness :
    generate_hash c9d1.previous_hash c9d1.user_id c9d1.activity_type c9d1.emission c9d1.timestamp
      = generate_hash c9d2.previous_hash c9d2.user_id c9d2.activity_type c9d2.emission
          c9d2.timestamp :=
  digest_independent_of_record_id c9d1 c9d2 (by decide) rfl rfl rfl rfl rfl

/-- C10: the digest canonicalizes the emission with Python `str()`; the
integer `4` and the float `4.0` denote the same number but stringify
differently, and with every other field identical `generate_hash` returns two
different digests for them. -/
theorem emission_str_canonicalization :
    (∀ (p u a t : String) (e : PyNum),
        generate_hash p u a e t = sha256Hex (p ++ u ++ a ++ pyStr e ++ t))
  ∧ pyNumToRat (PyNum.int 4) = pyNumToRat (PyNum.float 40 1)
  ∧ PyNum.int 4 ≠ PyNum.float 40 1
  ∧ pyStr (PyNum.int 4) = "4"
  ∧ pyStr (PyNum.float 40 1) = "4.0"
  ∧ generate_hash genesisHash "u1" "car" (PyNum.int 4) "2024-01-01T10:00:00"
      ≠ generate_hash genesisHash "u1" "car" (PyNum.float 40 1) "2024-01-01T10:00:00" := by
  refine ⟨fun p u a t e => rfl, ?_, by decide, by decide, by decide, by decide⟩
  norm_num [pyNumToRat]

/-! ## Principal-scoped verification and the `/api/verify-chain` endpoint

`app.py` imports `verify_chain_for_user` from `hashing`, but the provided
sources do not contain its definition — only this caller.  The function is
therefore modelled from the spec (§4.3, §6).  The endpoint
(`verify_hash_chain`) and the response model (`HashVerificationResponse`,
`models.py`) are embedded from the sources. -/

/-- The result of the spec's principal-scoped verification, including the
`scope : "owner"` tag the spec requires (§6). -/
structure UserVerificationResult where
  valid : Bool
  total_records : Nat
  message : String
  invalid_record_id : Option String
  scope : String
deriving DecidableEq, Repr

/-- The per-record loop of the scoped verification: only each record's own
digest is recomputed and compared; no `previous_hash` link is examined. -/
def userVerifyLoop (total_records : Nat) (record_number : Nat) :
    List Doc → UserVerificationResult
  | [] => ⟨true, total_records, validMessage total_records, none, "owner"⟩
  | record :: rest =>
    if verify_hash record = false then
      ⟨false, total_records, hashInvalidMessage (record_number + 1),
       some (Nat.repr record.id), "owner"⟩
    else
      userVerifyLoop total_records (record_number + 1) rest

/-- Modelled from the spec: `verify_chain_for_user` is imported by `app.py`
from `hashing` but missing from the provided sources.  Spec §4.3: it "filters
the same global ordered scan to records whose `owner == owner`, and for each
such record independently recomputes and compares only its own
`current_digest`"; it "cannot validate link continuity"; its result carries a
`scope : "owner"` tag (§6).  Message strings mirror `verify_chain`, with which
the spec says it shares its core algorithm. -/
def verify_chain_for_user (collection : List Doc) (user_id : String) :
    UserVerificationResult :=
  let mine := (sortById collection).filter (fun d => d.user_id == user_id)
  userVerifyLoop mine.length 0 mine

/-- Model `HashVerificationResponse` from `models.py`: exactly the four fields
`valid`, `total_records`, `message`, `invalid_record_id` — no scope tag. -/
structure HashVerificationResponse where
  valid : Bool
  total_records : Nat
  message : String
  invalid_record_id : Option String
deriving DecidableEq, Repr

/-- The `/api/verify-chain` endpoint (`verify_hash_chain` in `app.py`), with
the authentication guards (403 paths) out of scope: with a `user_id` query it
runs the scoped verification, otherwise the full one, and builds the response
from `result["valid"]`, `result["total_records"]`, `result["message"]` and
`result.get("invalid_record_id")` only. -/
def verify_hash_chain (collection : List Doc) : Option String → HashVerificationResponse
  | some uid =>
    let r := verify_chain_for_user collection uid
    ⟨r.valid, r.total_records, r.message, r.invalid_record_id⟩
  | none =>
    let r := verify_chain collection
    ⟨r.valid, r.total_records, r.message, r.invalid_record_id⟩

lemma userVerifyLoop_valid_of (l : List Doc) :
    ∀ total rn, (∀ d ∈ l, verify_hash d = true) →
      userVerifyLoop total rn l = ⟨true, total, validMessage total, none, "owner"⟩ := by
  induction l with
  | nil => intro total rn _; rfl
  | cons d rest ih =>
    intro total rn h
    have hd : verify_hash d = true := h d (by simp)
    simp only [userVerifyLoop]
    rw [if_neg (by simp [hd])]
    exact ih total (rn + 1) (fun e he => h e (List.mem_cons_of_mem d he))

/-- C5 (amended): scoped verification filters the ordered scan to the owner's
records and checks only each record's own digest — whenever every record of
the owner is individually hash-correct it reports valid with the owner's
record count, regardless of any link structure, so it never asserts link
continuity — and while the modelled result carries the spec's
`scope = "owner"` tag, the endpoint response drops it, surfacing only the four
fields of `HashVerificationResponse`. -/
theorem scoped_verification_spec (docs : List Doc) (uid : String)
    (h : ∀ d ∈ (sortById docs).filter (fun d => d.user_id == uid), verify_hash d = true) :
    (verify_chain_for_user docs uid).valid = true
  ∧ (verify_chain_for_user docs uid).total_records
      = ((sortById docs).filter (fun d => d.user_id == uid)).length
  ∧ (verify_chain_for_user docs uid).scope = "owner"
  ∧ verify_hash_chain docs (some uid)
      = ⟨(verify_chain_for_user docs uid).valid, (verify_chain_for_user docs uid).total_records,
         (verify_chain_for_user docs uid).message,
         (verify_chain_for_user docs uid).invalid_record_id⟩ := by
  have hloop := userVerifyLoop_valid_of
    ((sortById docs).filter (fun d => d.user_id == uid))
    ((sortById docs).filter (fun d => d.user_id == uid)).length 0 h
  have hv : verify_chain_for_user docs uid =
      ⟨true, ((sortById docs).filter (fun d => d.user_id == uid)).length,
       validMessage ((sortById docs).filter (fun d => d.user_id == uid)).length,
       none, "owner"⟩ := hloop
  exact ⟨by rw [hv], by rw [hv], by rw [hv], rfl⟩

/-- A chain with interleaved owners `"A"` and `"B"`, appended in the order
A, B, A, B. -/
def c5Chain : List Doc :=
  appendAll [] [⟨"A", "car", PyNum.int 1, "t1"⟩, ⟨"B", "car", PyNum.int 2, "t2"⟩,
    ⟨"A", "bus", PyNum.int 3, "t3"⟩, ⟨"B", "bus", PyNum.int 4, "t4"⟩]

/-- Witness for C5: on the interleaved-owner chain, scoped verification for
`"A"` reports valid over A's two (non-contiguous) records with the modelled
owner scope. -/
theorem scoped_verification_spec_witness :
    (verify_chain_for_user c5Chain "A").valid = true
  ∧ (verify_chain_for_user c5Chain "A").total_records = 2
  ∧ (verify_chain_for_user c5Chain "A").scope = "owner" := by
  have h := scoped_verification_spec c5Chain "A" (by decide)
  exact ⟨h.1, h.2.1.trans (by decide), h.2.2.1⟩

/-- A store with a single record owned by `"u1"`. -/
def c5aStore : List Doc := appendAll [] [⟨"u1", "car", PyNum.int 1, "t1"⟩]

/-- Counterexample for C5 as stated: the response surfaced by the endpoint
carries no scope tag — an owner-scoped call and a global call can return the
very same `HashVerificationResponse`, so a caller can mistake the weaker
owner-scoped guarantee for full-chain verification. -/
theorem scoped_response_indistinguishable_from_global :
    verify_hash_chain c5aStore (some "u1") = verify_hash_chain c5aStore none := by
  decide

/-! ## Concurrent appends

`create_activity` performs two separate awaits on the collection: the tip
read (`find_one`) and the commit (`insert_one`).  Between them the event loop
may run any other request handler, so concurrent appends interleave at these
boundaries.  An execution is a schedule of atomic read and write actions of
numbered append calls over the shared collection. -/

/-- Shared state of interleaved appends: the collection and, per append call,
the tip digest it has read but not yet committed. -/
structure ConcState where
  store : List Doc
  pending : List (Option String)
deriving DecidableEq, Repr

/-- One atomic action of append call `t`: its tip read or its commit. -/
inductive ConcAct where
  | readAct (t : Nat)
  | writeAct (t : Nat)
deriving DecidableEq, Repr

/-- Placeholder request (never reached on the schedules considered). -/
def dfltReq : AppendReq := ⟨"", "", .int 0, ""⟩

/-- Execute one atomic action: a read stores the current tip digest in the
call's buffer; a write commits the call's document with the previously read
tip (a write before its read does nothing — no real execution does that). -/
def concStep (reqs : List AppendReq) (s : ConcState) : ConcAct → ConcState
  | .readAct t => ⟨s.store, s.pending.set t (some (readTip s.store))⟩
  | .writeAct t =>
    match s.pending.getD t none with
    | some prev => ⟨commitDoc s.store (reqs.getD t dfltReq) prev, s.pending.set t none⟩
    | none => s

/-- Run a schedule of interleaved append actions from an initial collection. -/
def runConc (reqs : List AppendReq) (init : List Doc) (sched : List ConcAct) : List Doc :=
  (sched.foldl (concStep reqs) ⟨init, List.replicate reqs.length none⟩).store

/-- Two append requests fired concurrently. -/
def c8Reqs : List AppendReq :=
  [⟨"u1", "car", PyNum.float 487 2, "t1"⟩, ⟨"u2", "bus", PyNum.float 120 2, "t2"⟩]

/-- The racing schedule: both calls read the tip before either commits. -/
def c8Race : List Doc :=
  runConc c8Reqs [] [.readAct 0, .readAct 1, .writeAct 0, .writeAct 1]

/-- The serialized schedule: each call commits before the next reads. -/
def c8Serial : List Doc :=
  runConc c8Reqs [] [.readAct 0, .writeAct 0, .readAct 1, .writeAct 1]

/-- Counterexample for C8: from an initially consistent (empty) chain, there
is an interleaving of two concurrent `create_activity` calls — both tip reads
before either commit, which nothing in the code prevents — after which both
calls have committed, the two new records share the same `previous_hash`, and
full verification reports valid=false. -/
theorem concurrent_append_race_breaks_chain :
    (verify_chain []).valid = true
  ∧ c8Race.length = 2
  ∧ (c8Race.getD 0 dfltDoc).previous_hash = (c8Race.getD 1 dfltDoc).previous_hash
  ∧ (verify_chain c8Race).valid = false := by
  refine ⟨by decide, by decide, by decide, by decide⟩

/-- C8 (amended): when the two appends are serialized the result coincides
with sequential `create_activity` calls — two records, distinct
`previous_hash` values, and valid full verification — but the code does not
enforce this serialization: on the racing schedule both calls read the same
tip and both commit, leaving two records with the same `previous_hash` and a
chain on which full verification reports valid=false. -/
theorem append_interleaving_behavior :
    (verify_chain c8Serial).valid = true
  ∧ (verify_chain c8Serial).total_records = 2
  ∧ (c8Serial.getD 0 dfltDoc).previous_hash ≠ (c8Serial.getD 1 dfltDoc).previous_hash
  ∧ c8Serial = appendAll [] c8Reqs
  ∧ (c8Race.getD 0 dfltDoc).previous_hash = (c8Race.getD 1 dfltDoc).previous_hash
  ∧ (verify_chain c8Race).valid = false := by
  refine ⟨by decide, by decide, by decide, by decide, by decide, by decide⟩

end EcoLedger
